import Mathlib

/-!
# Verification of the kwil-db node core against its specification

Shallow embedding of the node-core subsystems of the kwil-db repository:
the protocol codecs and generic response reader (package `node`), the
in-memory block store (`node/store/memstore`), the peer manager's
reconnect policy (`node/peers`), the dataset transaction pipeline
(`internal/modules/datasets`), and the mempool admission algorithm.

Bytes are modelled as natural numbers (values < 256 where produced by
the code), byte strings as `List Nat`, Go `int64`/`uint64` values as
`Int`/`Nat` with explicit reduction modulo `2^64` where the code relies
on machine-integer wrapping.
-/

/-! ## Byte-level helpers (encoding/binary, little-endian) -/

/-- Little-endian byte encoding of `x` on `w` bytes: the low byte first,
as `binary.LittleEndian.PutUint64`/`PutUint32` and
`binary.LittleEndian.AppendUint64` produce. -/
def leBytes : Nat → Nat → List Nat
  | 0, _ => []
  | w + 1, x => x % 256 :: leBytes w (x / 256)

/-- Little-endian read of a byte string, low byte first, as
`binary.LittleEndian.Uint64`/`Uint32` compute. -/
def fromLE : List Nat → Nat
  | [] => 0
  | b :: r => b + 256 * fromLE r

/-- The bits of a Go `int64` value reinterpreted as `uint64`
(the conversion `uint64(h)` on a signed 64-bit `h`). -/
def toUInt64 (h : Int) : Nat := (h % (2 ^ 64 : Int)).toNat

/-- The bits of a `uint64` value reinterpreted as a Go `int64`
(the conversion `int64(n)`). -/
def toInt64 (n : Nat) : Int :=
  if n % 2 ^ 64 < 2 ^ 63 then ((n % 2 ^ 64 : Nat) : Int)
  else ((n % 2 ^ 64 : Nat) : Int) - 2 ^ 64

theorem leBytes_length (w x : Nat) : (leBytes w x).length = w := by
  induction w generalizing x with
  | zero => rfl
  | succ k ih => simp [leBytes, ih]

theorem fromLE_leBytes (w x : Nat) : fromLE (leBytes w x) = x % 256 ^ w := by
  induction w generalizing x with
  | zero => simp [leBytes, fromLE, Nat.mod_one]
  | succ k ih =>
    have h256 : (256 : Nat) ^ (k + 1) = 256 * 256 ^ k := by
      rw [pow_succ]; ring
    rw [leBytes, fromLE, ih, h256, Nat.mod_mul]

theorem toUInt64_lt (h : Int) : toUInt64 h < 2 ^ 64 := by
  have h1 : (0 : Int) < 2 ^ 64 := by norm_num
  have h2 := Int.emod_lt_of_pos h h1
  have h3 := Int.emod_nonneg h (by norm_num : (2 ^ 64 : Int) ≠ 0)
  unfold toUInt64
  omega

theorem toInt64_toUInt64 (h : Int) (hlo : -2 ^ 63 ≤ h) (hhi : h < 2 ^ 63) :
    toInt64 (toUInt64 h) = h := by
  have h1 : (0 : Int) < 2 ^ 64 := by norm_num
  have h2 := Int.emod_lt_of_pos h h1
  have h3 := Int.emod_nonneg h (by norm_num : (2 ^ 64 : Int) ≠ 0)
  have hcase : h % (2 ^ 64 : Int) = h ∨ h % (2 ^ 64 : Int) = h + 2 ^ 64 := by
    rcases le_or_lt 0 h with hp | hn
    · left
      exact Int.emod_eq_of_lt hp (by omega)
    · right
      have heq : (h + 2 ^ 64) % (2 ^ 64 : Int) = h % (2 ^ 64 : Int) := by
        simp [Int.add_mul_emod_self_left]
      rw [← heq]
      exact Int.emod_eq_of_lt (by omega) (by omega)
  rw [toInt64, toUInt64]
  split_ifs with h5
  · omega
  · omega

/-! ## Protocol codecs (node package, message codecs file)

Go fixed-size array fields (`types.Hash = [32]byte`) are modelled as
`List Nat` together with a length-32 hypothesis in the theorems, exactly
the constraint the Go array type enforces. -/

/-- `types.HashLen` (32-byte hashes). -/
def HashLen : Nat := 32

/-- The all-zero hash, `types.Hash{}`. -/
def zeroHash : List Nat := List.replicate 32 0

/-- `io.ReadFull` on a prefix of the remaining stream: succeeds with the
first `k` bytes and the rest exactly when `k` bytes are available. -/
def readFull (k : Nat) (data : List Nat) : Option (List Nat × List Nat) :=
  if k ≤ data.length then some (data.take k, data.drop k) else none

/-- `blockAnnMsg` for ProtocolIDBlkAnn "/kwil/blkann/1.0.0". -/
structure blockAnnMsg where
  Hash : List Nat
  Height : Int
  AppHash : List Nat
  LeaderSig : List Nat
deriving DecidableEq

/-- `blockAnnMsg.WriteTo` / `blockAnnMsg.MarshalBinary`: hash, height
(8-byte little-endian of `uint64(m.Height)`), app hash, signature length
(8-byte little-endian), signature. -/
def blockAnnMsg.MarshalBinary (m : blockAnnMsg) : List Nat :=
  m.Hash ++ leBytes 8 (toUInt64 m.Height) ++ m.AppHash ++
    leBytes 8 m.LeaderSig.length ++ m.LeaderSig

/-- `blockAnnMsg.ReadFrom`: reads the fields in order, rejecting a leader
signature length above 1000; returns the message and the unconsumed rest
of the stream. -/
def blockAnnMsg.ReadFrom (data : List Nat) : Option (blockAnnMsg × List Nat) :=
  match readFull 32 data with
  | none => none
  | some (hash, r1) =>
    match readFull 8 r1 with
    | none => none
    | some (hBts, r2) =>
      match readFull 32 r2 with
      | none => none
      | some (appHash, r3) =>
        match readFull 8 r3 with
        | none => none
        | some (slBts, r4) =>
          if fromLE slBts > 1000 then none
          else
            match readFull (fromLE slBts) r4 with
            | none => none
            | some (sig, r5) =>
              some ({ Hash := hash, Height := toInt64 (fromLE hBts),
                      AppHash := appHash, LeaderSig := sig }, r5)

/-- `blockAnnMsg.UnmarshalBinary` delegates to `ReadFrom` on a reader over
`data` and reports only the error, ignoring unconsumed trailing bytes. -/
def blockAnnMsg.UnmarshalBinary (data : List Nat) : Option blockAnnMsg :=
  (blockAnnMsg.ReadFrom data).map Prod.fst

/-- `blockHeightReq` for ProtocolIDBlockHeight "/kwil/blkheight/1.0.0". -/
structure blockHeightReq where
  Height : Int
deriving DecidableEq

/-- `blockHeightReq.MarshalBinary`: 8-byte little-endian `uint64(r.Height)`. -/
def blockHeightReq.MarshalBinary (r : blockHeightReq) : List Nat :=
  leBytes 8 (toUInt64 r.Height)

/-- `blockHeightReq.UnmarshalBinary`: requires exactly 8 bytes. -/
def blockHeightReq.UnmarshalBinary (data : List Nat) : Option blockHeightReq :=
  if data.length = 8 then some { Height := toInt64 (fromLE data) } else none

/-- `blockHashReq` for ProtocolIDBlock "/kwil/blk/1.0.0" (also embedded by
`txHashReq` and `txHashAnn`). -/
structure blockHashReq where
  Hash : List Nat
deriving DecidableEq

/-- `blockHashReq.MarshalBinary`: the raw 32 hash bytes. -/
def blockHashReq.MarshalBinary (r : blockHashReq) : List Nat :=
  r.Hash

/-- `blockHashReq.UnmarshalBinary`: requires exactly `types.HashLen` bytes. -/
def blockHashReq.UnmarshalBinary (data : List Nat) : Option blockHashReq :=
  if data.length = HashLen then some { Hash := data } else none

/-- `copy(buf[off:], bs)`-style in-place write used by
`snapshotChunkReq.MarshalBinary`'s buffer construction. -/
def writeAt (buf : List Nat) (off : Nat) (bs : List Nat) : List Nat :=
  buf.take off ++ bs ++ buf.drop (off + bs.length)

/-- `snapshotChunkReq` for ProtocolIDSnapshotChunk "/kwil/snapchunk/1.0.0". -/
structure snapshotChunkReq where
  Height : Nat
  Format : Nat
  Index : Nat
  Hash : List Nat
deriving DecidableEq

/-- `snapshotChunkReq.MarshalBinary`: a 48-byte buffer
(`make([]byte, 8+4+4+types.HashLen)`) with `Height` at `[0:8]`, `Format`
at `[8:12]`, `Index` written over the same range `[8:12]`, and the hash
at `[12:44]`; bytes `[44:48]` keep their zero initialisation. -/
def snapshotChunkReq.MarshalBinary (r : snapshotChunkReq) : List Nat :=
  let buf := List.replicate (8 + 4 + 4 + HashLen) 0
  let buf := writeAt buf 0 (leBytes 8 r.Height)
  let buf := writeAt buf 8 (leBytes 4 r.Format)
  let buf := writeAt buf 8 (leBytes 4 r.Index)
  writeAt buf 12 r.Hash

/-- `snapshotChunkReq.UnmarshalBinary`: requires exactly `8+4+types.HashLen`
= 44 bytes, reads `Height` from `[0:8]`, `Index` from `[8:12]` and the
hash from `[12:]`; `Format` is never read and keeps the zero value of a
freshly declared request. -/
def snapshotChunkReq.UnmarshalBinary (data : List Nat) : Option snapshotChunkReq :=
  if data.length = 8 + 4 + HashLen then
    some { Height := fromLE (data.take 8), Format := 0,
           Index := fromLE ((data.drop 8).take 4), Hash := data.drop 12 }
  else none

/-- `snapshotReq` for ProtocolIDSnapshotMeta "/kwil/snapmeta/1.0.0". -/
structure snapshotReq where
  Height : Nat
  Format : Nat
deriving DecidableEq

/-- `snapshotReq.MarshalBinary`: `Height` at `[0:8]`, `Format` at `[8:12]`. -/
def snapshotReq.MarshalBinary (r : snapshotReq) : List Nat :=
  leBytes 8 r.Height ++ leBytes 4 r.Format

/-- `snapshotReq.UnmarshalBinary`: requires exactly 12 bytes. -/
def snapshotReq.UnmarshalBinary (data : List Nat) : Option snapshotReq :=
  if data.length = 8 + 4 then
    some { Height := fromLE (data.take 8), Format := fromLE (data.drop 8) }
  else none

/-! ## Generic response reader (`readResp`) -/

/-- The not-found sentinel response `noData = []byte{0}`. -/
def noData : List Nat := [0]

/-- Errors surfaced by `readResp`. -/
inductive RespErr where
  | noResponse
  | notFound
deriving DecidableEq

/-- `readResp`: wraps the stream in `io.LimitReader(rd, limit)` and reads
until EOF, so the body is the stream truncated to `limit` bytes; an empty
body is `ErrNoResponse`, a body equal to `noData` is `ErrNotFound`, and
anything else is returned as content. -/
def readResp (stream : List Nat) (limit : Nat) : Except RespErr (List Nat) :=
  let resp := stream.take limit
  if resp = [] then .error .noResponse
  else if resp = noData then .error .notFound
  else .ok resp

/-! ## In-memory block store (`node/store/memstore`)

Go maps are modelled as association lists with in-place upsert
(`alookup`/`upsert`); `Best` folds over the entries exactly as the Go
`for height, hashes := range bs.hashes` loop does (the claims proved
below are independent of the iteration order because keys are unique).
The mutex-guarded methods are modelled as sequential state transformers;
the `PreFetch` release closure becomes an explicit state transformer
returned alongside the boolean. -/

/-- Association-list lookup, the read `m[k]` of a Go map. -/
def alookup {κ α : Type} [DecidableEq κ] : List (κ × α) → κ → Option α
  | [], _ => none
  | e :: r, k => if e.1 = k then some e.2 else alookup r k

/-- Association-list insert-or-replace, the write `m[k] = v` of a Go map. -/
def upsert {κ α : Type} [DecidableEq κ] : List (κ × α) → κ → α → List (κ × α)
  | [], k, v => [(k, v)]
  | e :: r, k, v => if e.1 = k then (k, v) :: r else e :: upsert r k v

/-- `blockHashes`: the per-height record of block hash and app hash. -/
structure blockHashes where
  hash : List Nat
  appHash : List Nat
deriving DecidableEq

/-- `ktypes.Block`, reduced to the parts the store touches: the header
height, the raw transactions, and the value of `block.Hash()` (the
header digest, computed outside this repository's sources and carried
here as a field of the block value). -/
structure Block where
  height : Int
  txns : List (List Nat)
  hash : List Nat
deriving DecidableEq

/-- `block.Hash()`. -/
def Block.Hash (b : Block) : List Nat := b.hash

/-- `MemBS`: the five indices of the in-memory block store. -/
structure MemBS where
  idx : List (List Nat × Int)
  hashes : List (Int × blockHashes)
  blocks : List (List Nat × Block)
  txResults : List (List Nat × List (List Nat))
  txIds : List (List Nat × List Nat)
  fetching : List (List Nat)
deriving DecidableEq

/-- `NewMemBS`: all maps empty. -/
def NewMemBS : MemBS :=
  { idx := [], hashes := [], blocks := [], txResults := [], txIds := [],
    fetching := [] }

/-- `MemBS.Have`: membership in the block index. -/
def MemBS.Have (bs : MemBS) (blkid : List Nat) : Bool :=
  (alookup bs.idx blkid).isSome

/-- `MemBS.Store`: indexes the block under its hash and height and every
contained transaction in the tx→block map. `hashBytes` stands for
`types.HashBytes`, the transaction digest computed outside these sources. -/
def MemBS.Store (hashBytes : List Nat → List Nat) (bs : MemBS) (block : Block)
    (appHash : List Nat) : MemBS :=
  let blkHash := block.Hash
  { bs with
    blocks := upsert bs.blocks blkHash block
    idx := upsert bs.idx blkHash block.height
    hashes := upsert bs.hashes block.height { hash := blkHash, appHash := appHash }
    txIds := block.txns.foldl (fun m tx => upsert m (hashBytes tx) blkHash) bs.txIds }

/-- `MemBS.StoreResults`. -/
def MemBS.StoreResults (bs : MemBS) (hash : List Nat)
    (results : List (List Nat)) : MemBS :=
  { bs with txResults := upsert bs.txResults hash results }

/-- The body of `Best`'s range loop: take the entry when
`height >= bestHeight`. -/
def bestStep (acc : Int × List Nat × List Nat) (e : Int × blockHashes) :
    Int × List Nat × List Nat :=
  if e.1 ≥ acc.1 then (e.1, e.2.hash, e.2.appHash) else acc

/-- `MemBS.Best`: fold of `bestStep` over the height index, starting from
the zero values of `var bestHeight int64` and `var bestHash, bestAppHash
types.Hash`. -/
def MemBS.Best (bs : MemBS) : Int × List Nat × List Nat :=
  bs.hashes.foldl bestStep (0, zeroHash, zeroHash)

/-- `MemBS.PreFetch`: returns `(false, no-op)` when the block is stored or
already being fetched, otherwise marks it as being fetched and returns
`(true, release)` where `release` deletes the mark. The release closure
is modelled as the state transformer it applies when run. -/
def MemBS.PreFetch (bs : MemBS) (blkid : List Nat) :
    Bool × MemBS × (MemBS → MemBS) :=
  if (alookup bs.idx blkid).isSome then (false, bs, id)
  else if blkid ∈ bs.fetching then (false, bs, id)
  else (true, { bs with fetching := blkid :: bs.fetching },
        fun s => { s with fetching := s.fetching.filter (fun x => decide (x ≠ blkid)) })

/-! ## Peer manager reconnect policy (`node/peers/peers.go`) -/

/-- `maxRetries = 500`. -/
def maxRetries : Nat := 500

/-- `baseReconnectDelay = 2 * time.Second`, in nanoseconds. -/
def baseReconnectDelay : Nat := 2000000000

/-- `1 * time.Minute`, in nanoseconds. -/
def oneMinute : Int := 60000000000

/-- The delay computed for reconnect attempt `attempt` (0-based):
`delay := baseReconnectDelay * (1 << attempt)` evaluated in Go `int64`
(`time.Duration`) arithmetic, i.e. the product reduced modulo `2^64` and
reinterpreted as a signed value, then capped via
`if delay > 1*time.Minute { delay = 1 * time.Minute }`. -/
def reconnectDelay (attempt : Nat) : Int :=
  let delay := toInt64 (baseReconnectDelay * 2 ^ attempt)
  if delay > oneMinute then oneMinute else delay

/-- The attempt counter of `reconnectWithRetry`, modelled over the
environment's behaviour: `success k` tells whether the `Connect` call of
attempt `k` succeeds, `stop k` whether shutdown (`pm.done`) interrupts
the wait after failed attempt `k`. Returns the number of `Connect`
attempts performed, recursing on the remaining iteration budget of
`for attempt := range maxRetries`. -/
def runRetry (success stop : Nat → Bool) : Nat → Nat → Nat
  | _, 0 => 0
  | k, fuel + 1 =>
    if success k then 1
    else if stop k then 1
    else 1 + runRetry success stop (k + 1) fuel

/-- `reconnectWithRetry`'s total number of connection attempts. -/
def reconnectAttempts (success stop : Nat → Bool) : Nat :=
  runRetry success stop 0 maxRetries

/-! ## Dataset transaction pipeline (`internal/modules/datasets/execution.go`)

The pricer, account store and engine are external collaborators; their
outcomes are passed in as values (`PriceResult`, `spendOk`, `engineOk`).
Each operation returns the list of `Spend` calls it issued to the
account store alongside its `ExecutionResponse` and error, so that
"Spend is not invoked" is a statement about the returned list. -/

/-- Transaction fields the dataset module reads: `tx.Sender`,
`tx.Body.Fee` (a `big.Int`) and `tx.Body.Nonce` (a `uint64`). -/
structure DsTx where
  sender : List Nat
  fee : Int
  nonce : Nat
deriving DecidableEq

/-- `accounts.Spend`: the argument record of an account-store debit. -/
structure Spend where
  accountPubKey : List Nat
  amount : Int
  nonce : Int
deriving DecidableEq

/-- `ExecutionResponse`. -/
structure ExecutionResponse where
  fee : Int
  gasUsed : Int
deriving DecidableEq

/-- Errors of the dataset module. -/
inductive DsErr where
  | insufficientFee
  | priceFailed
  | spendFailed
  | engineFailed
deriving DecidableEq

/-- The pricer's outcome: `PriceDeploy`/`PriceDrop`/`PriceExecute` return
`(price *big.Int, err error)`; on error the price pointer may be nil. -/
inductive PriceResult where
  | ok (price : Int)
  | err (price : Option Int)
deriving DecidableEq

/-- `resp`. -/
def resp (fee : Int) : ExecutionResponse := { fee := fee, gasUsed := 0 }

/-- `DatasetModule.compareAndSpend`: rejects with `ErrInsufficientFee`
when `tx.Body.Fee.Cmp(price) < 0` without touching the account store,
otherwise issues `Spend{tx.Sender, price, int64(tx.Body.Nonce)}` whose
own outcome is `spendOk`. -/
def compareAndSpend (price : Int) (tx : DsTx) (spendOk : Bool) :
    List Spend × Option DsErr :=
  if tx.fee < price then ([], some .insufficientFee)
  else ([{ accountPubKey := tx.sender, amount := price,
           nonce := toInt64 tx.nonce }],
        if spendOk then none else some .spendFailed)

/-- `DatasetModule.Deploy`: price, compare-and-spend, dispatch
`CreateDataset` to the engine; every return path carries `resp(price)`. -/
def Deploy (pr : PriceResult) (spendOk engineOk : Bool) (tx : DsTx) :
    List Spend × ExecutionResponse × Option DsErr :=
  match pr with
  | .err p => ([], resp (p.getD 0), some .priceFailed)
  | .ok price =>
    match compareAndSpend price tx spendOk with
    | (spends, some e) => (spends, resp price, some e)
    | (spends, none) =>
      if engineOk then (spends, resp price, none)
      else (spends, resp price, some .engineFailed)

/-- `DatasetModule.Drop`: same shape as `Deploy` with `DropDataset`. -/
def Drop (pr : PriceResult) (spendOk engineOk : Bool) (tx : DsTx) :
    List Spend × ExecutionResponse × Option DsErr :=
  match pr with
  | .err p => ([], resp (p.getD 0), some .priceFailed)
  | .ok price =>
    match compareAndSpend price tx spendOk with
    | (spends, some e) => (spends, resp price, some e)
    | (spends, none) =>
      if engineOk then (spends, resp price, none)
      else (spends, resp price, some .engineFailed)

/-- `DatasetModule.Execute`: same shape as `Deploy` with `engine.Execute`. -/
def Execute (pr : PriceResult) (spendOk engineOk : Bool) (tx : DsTx) :
    List Spend × ExecutionResponse × Option DsErr :=
  match pr with
  | .err p => ([], resp (p.getD 0), some .priceFailed)
  | .ok price =>
    match compareAndSpend price tx spendOk with
    | (spends, some e) => (spends, resp price, some e)
    | (spends, none) =>
      if engineOk then (spends, resp price, none)
      else (spends, resp price, some .engineFailed)

/-! ## Mempool admission (txapp package) -/

/-- `types.Account`, as the mempool tracks it: balance and the tracked
nonce (committed nonce plus admitted depth). -/
structure Account where
  balance : Int
  nonce : Nat
deriving DecidableEq

/-- Mempool admission errors. -/
inductive MempoolErr where
  | duplicateOrStale
  | outOfOrder
deriving DecidableEq

/-- Modelled from the spec: `mempool.applyTransaction` with gas costs
disabled (the mempool implementation itself is not among the provided
sources; only its test `Test_MempoolWithoutGas` is). Following the
admission algorithm of the specification with the tracked account nonce
`T = N + max_admitted_nonce_gap(s)`: a nonce at most `T` is rejected as
duplicate/stale, a nonce above the expected `T + 1` is rejected as
out-of-order, and the nonce `T + 1` is admitted, advancing the tracked
nonce (which the test reads as `m.accounts[sender].Nonce`). A sender
without an account entry starts from the zero account. -/
def applyTransaction (accounts : List (String × Account)) (sender : String)
    (nonce : Nat) : Except MempoolErr (List (String × Account)) :=
  let acct := (alookup accounts sender).getD { balance := 0, nonce := 0 }
  if nonce ≤ acct.nonce then .error .duplicateOrStale
  else if acct.nonce + 1 < nonce then .error .outOfOrder
  else .ok (upsert accounts sender { acct with nonce := nonce })

/-! ## Helper lemmas: codecs and framing -/

theorem readFull_append (l1 l2 : List Nat) (k : Nat) (h : l1.length = k) :
    readFull k (l1 ++ l2) = some (l1, l2) := by
  unfold readFull
  rw [if_pos]
  · rw [List.take_left' h, List.drop_left' h]
  · rw [List.length_append]; omega

theorem readFull_exact (l : List Nat) (k : Nat) (h : l.length = k) :
    readFull k l = some (l, []) := by
  unfold readFull
  rw [if_pos (by omega)]
  rw [← h, List.take_length, List.drop_length]

theorem readFull_of_le (k : Nat) (l : List Nat) (h : k ≤ l.length) :
    readFull k l = some (l.take k, l.drop k) := by
  unfold readFull
  rw [if_pos h]

theorem readFull_length (k : Nat) (l a b : List Nat) (h : readFull k l = some (a, b)) :
    a.length = k := by
  unfold readFull at h
  split at h
  · injection h with h2
    injection h2 with h3 h4
    rw [← h3, List.length_take]
    omega
  · exact Option.noConfusion h

theorem pow256_8 : (256 : Nat) ^ 8 = 2 ^ 64 := by norm_num

theorem pow256_4 : (256 : Nat) ^ 4 = 2 ^ 32 := by norm_num

theorem blockAnn_roundtrip (m : blockAnnMsg) (h1 : m.Hash.length = 32)
    (h2 : m.AppHash.length = 32) (h3 : -2 ^ 63 ≤ m.Height) (h4 : m.Height < 2 ^ 63)
    (h5 : m.LeaderSig.length ≤ 1000) :
    blockAnnMsg.UnmarshalBinary (blockAnnMsg.MarshalBinary m) = some m := by
  have hh : blockAnnMsg.MarshalBinary m =
      m.Hash ++ (leBytes 8 (toUInt64 m.Height) ++ (m.AppHash ++
        (leBytes 8 m.LeaderSig.length ++ m.LeaderSig))) := by
    simp [blockAnnMsg.MarshalBinary]
  have hlen : fromLE (leBytes 8 m.LeaderSig.length) = m.LeaderSig.length := by
    rw [fromLE_leBytes, pow256_8, Nat.mod_eq_of_lt (by omega)]
  have hht : toInt64 (fromLE (leBytes 8 (toUInt64 m.Height))) = m.Height := by
    rw [fromLE_leBytes, pow256_8, Nat.mod_eq_of_lt (toUInt64_lt _),
      toInt64_toUInt64 _ h3 h4]
  rw [blockAnnMsg.UnmarshalBinary, hh, blockAnnMsg.ReadFrom,
    readFull_append _ _ _ h1]
  simp only [readFull_append _ _ _ (leBytes_length 8 _), readFull_append _ _ _ h2,
    readFull_exact _ _ rfl, hlen, hht]
  rw [if_neg (by omega)]
  simp [readFull_exact _ _ rfl]

theorem blockHeight_roundtrip (r : blockHeightReq) (h3 : -2 ^ 63 ≤ r.Height)
    (h4 : r.Height < 2 ^ 63) :
    blockHeightReq.UnmarshalBinary (blockHeightReq.MarshalBinary r) = some r := by
  rw [blockHeightReq.UnmarshalBinary, blockHeightReq.MarshalBinary,
    if_pos (leBytes_length 8 _)]
  rw [fromLE_leBytes, pow256_8, Nat.mod_eq_of_lt (toUInt64_lt _),
    toInt64_toUInt64 _ h3 h4]

theorem blockHash_roundtrip (r : blockHashReq) (h1 : r.Hash.length = 32) :
    blockHashReq.UnmarshalBinary (blockHashReq.MarshalBinary r) = some r := by
  rw [blockHashReq.UnmarshalBinary, blockHashReq.MarshalBinary, HashLen, if_pos h1]

theorem snapshotReq_roundtrip (r : snapshotReq) (h1 : r.Height < 2 ^ 64)
    (h2 : r.Format < 2 ^ 32) :
    snapshotReq.UnmarshalBinary (snapshotReq.MarshalBinary r) = some r := by
  rw [snapshotReq.UnmarshalBinary, snapshotReq.MarshalBinary]
  rw [if_pos (by rw [List.length_append, leBytes_length, leBytes_length])]
  rw [List.take_left' (leBytes_length 8 _), List.drop_left' (leBytes_length 8 _)]
  rw [fromLE_leBytes, pow256_8, Nat.mod_eq_of_lt h1,
    fromLE_leBytes, pow256_4, Nat.mod_eq_of_lt h2]

theorem snapshotChunk_marshal_length (r : snapshotChunkReq) (h1 : r.Hash.length = 32) :
    (snapshotChunkReq.MarshalBinary r).length = 48 := by
  simp [snapshotChunkReq.MarshalBinary, writeAt, leBytes_length, HashLen, h1]

theorem snapshotChunk_roundtrip_fails (r : snapshotChunkReq) (h1 : r.Hash.length = 32) :
    snapshotChunkReq.UnmarshalBinary (snapshotChunkReq.MarshalBinary r) = none := by
  rw [snapshotChunkReq.UnmarshalBinary,
    if_neg (by rw [snapshotChunk_marshal_length r h1]; simp [HashLen])]

theorem readFrom_oversize_sig (data : List Nat) (hlen : 80 ≤ data.length)
    (hsig : 1000 < fromLE ((data.drop 72).take 8)) :
    blockAnnMsg.ReadFrom data = none := by
  rw [blockAnnMsg.ReadFrom]
  rw [readFull_of_le 32 data (by omega)]
  simp only []
  rw [readFull_of_le 8 (data.drop 32) (by rw [List.length_drop]; omega)]
  simp only []
  rw [readFull_of_le 32 ((data.drop 32).drop 8)
    (by simp only [List.length_drop]; omega)]
  simp only []
  rw [readFull_of_le 8 (((data.drop 32).drop 8).drop 32)
    (by simp only [List.length_drop]; omega)]
  simp only [List.drop_drop]
  rw [if_pos hsig]

theorem readFrom_sig_le (data : List Nat) (m : blockAnnMsg) (rest : List Nat)
    (h : blockAnnMsg.ReadFrom data = some (m, rest)) :
    m.LeaderSig.length ≤ 1000 := by
  unfold blockAnnMsg.ReadFrom at h
  repeat' split at h
  all_goals try exact Option.noConfusion h
  rename_i hash r1 e1 hBts r2 e2 aH r3 e3 sl r4 e4 hnot sig r5 e5
  injection h with h2
  injection h2 with h3 h4
  have hl := readFull_length _ _ _ _ e5
  rw [← h3]
  simp only []
  omega

/-! ## Helper lemmas: block store `Best` fold and `upsert` -/

theorem bestStep_height (acc : Int × List Nat × List Nat) (e : Int × blockHashes) :
    (bestStep acc e).1 = max acc.1 e.1 := by
  unfold bestStep
  split_ifs with hc
  · rw [max_eq_right hc]
  · rw [max_eq_left (by omega)]

theorem bestStep_nonneg (acc : Int × List Nat × List Nat) (e : Int × blockHashes)
    (h : 0 ≤ acc.1) : 0 ≤ (bestStep acc e).1 := by
  rw [bestStep_height]
  omega

theorem bestStep_of_lt (acc : Int × List Nat × List Nat) (e : Int × blockHashes)
    (h : e.1 < acc.1) : bestStep acc e = acc := by
  unfold bestStep
  rw [if_neg (by omega)]

theorem bestStep_of_ge (acc : Int × List Nat × List Nat) (e : Int × blockHashes)
    (h : acc.1 ≤ e.1) : bestStep acc e = (e.1, e.2.hash, e.2.appHash) := by
  unfold bestStep
  rw [if_pos h]

theorem foldl_bestStep_height_ge (l : List (Int × blockHashes))
    (acc : Int × List Nat × List Nat) : acc.1 ≤ (l.foldl bestStep acc).1 := by
  induction l generalizing acc with
  | nil => exact le_refl _
  | cons e r ih =>
    rw [List.foldl_cons]
    calc acc.1 ≤ (bestStep acc e).1 := by rw [bestStep_height]; omega
    _ ≤ _ := ih _

theorem foldl_bestStep_mem_le (l : List (Int × blockHashes))
    (acc : Int × List Nat × List Nat) (e : Int × blockHashes) (he : e ∈ l) :
    e.1 ≤ (l.foldl bestStep acc).1 := by
  induction l generalizing acc with
  | nil => exact absurd he (List.not_mem_nil e)
  | cons f r ih =>
    rw [List.foldl_cons]
    rcases List.mem_cons.mp he with rfl | hr
    · calc e.1 ≤ (bestStep acc e).1 := by rw [bestStep_height]; omega
      _ ≤ _ := foldl_bestStep_height_ge r _
    · exact ih _ hr

theorem foldl_bestStep_mono (l : List (Int × blockHashes))
    (a b : Int × List Nat × List Nat) (h : a.1 ≤ b.1) :
    (l.foldl bestStep a).1 ≤ (l.foldl bestStep b).1 := by
  induction l generalizing a b with
  | nil => exact h
  | cons e r ih =>
    rw [List.foldl_cons, List.foldl_cons]
    refine ih _ _ ?_
    rw [bestStep_height, bestStep_height]
    omega

theorem upsert_foldl_bestStep_ge (l : List (Int × blockHashes)) (k : Int)
    (v : blockHashes) (acc : Int × List Nat × List Nat) :
    (l.foldl bestStep acc).1 ≤ ((upsert l k v).foldl bestStep acc).1 := by
  induction l generalizing acc with
  | nil =>
    rw [upsert, List.foldl_nil, List.foldl_cons, List.foldl_nil, bestStep_height]
    omega
  | cons e r ih =>
    rw [upsert]
    split_ifs with hc
    · rw [List.foldl_cons, List.foldl_cons]
      refine foldl_bestStep_mono _ _ _ ?_
      rw [bestStep_height, bestStep_height, hc]
    · rw [List.foldl_cons, List.foldl_cons]
      exact ih _

theorem upsert_of_keys_ne {κ α : Type} [DecidableEq κ] (l : List (κ × α)) (k : κ)
    (v : α) (h : ∀ e ∈ l, e.1 ≠ k) : upsert l k v = l ++ [(k, v)] := by
  induction l with
  | nil => rfl
  | cons e r ih =>
    rw [upsert, if_neg (h e (List.mem_cons_self e r)), List.cons_append,
      ih (fun x hx => h x (List.mem_cons_of_mem e hx))]

theorem upsert_neg_foldl_bestStep (l : List (Int × blockHashes)) (k : Int)
    (v : blockHashes) (acc : Int × List Nat × List Nat) (hk : k < 0)
    (hacc : 0 ≤ acc.1) :
    (upsert l k v).foldl bestStep acc = l.foldl bestStep acc := by
  induction l generalizing acc with
  | nil =>
    rw [upsert, List.foldl_cons, List.foldl_nil, List.foldl_nil]
    exact bestStep_of_lt acc (k, v) (lt_of_lt_of_le hk hacc)
  | cons e r ih =>
    rw [upsert]
    split_ifs with hc
    · rw [List.foldl_cons, List.foldl_cons]
      have h1 : bestStep acc (k, v) = acc :=
        bestStep_of_lt acc (k, v) (lt_of_lt_of_le hk hacc)
      have h2 : bestStep acc e = acc := bestStep_of_lt acc e (by omega)
      rw [h1, h2]
    · rw [List.foldl_cons, List.foldl_cons]
      exact ih _ (bestStep_nonneg _ _ hacc)

/-! ## Helper lemmas: reconnect retry loop -/

theorem runRetry_le (success stop : Nat → Bool) (k fuel : Nat) :
    runRetry success stop k fuel ≤ fuel := by
  induction fuel generalizing k with
  | zero => exact le_refl 0
  | succ f ih =>
    rw [runRetry]
    split_ifs
    · omega
    · omega
    · have := ih (k + 1)
      omega

theorem runRetry_first_success (success stop : Nat → Bool) (j : Nat) :
    ∀ k fuel, j < fuel → success (k + j) = true →
    (∀ i, i < j → success (k + i) = false ∧ stop (k + i) = false) →
    runRetry success stop k fuel = j + 1 := by
  induction j with
  | zero =>
    intro k fuel hf hs _
    obtain ⟨f, rfl⟩ : ∃ f, fuel = f + 1 := ⟨fuel - 1, by omega⟩
    rw [Nat.add_zero] at hs
    rw [runRetry, if_pos hs]
  | succ j ih =>
    intro k fuel hf hs hprev
    obtain ⟨f, rfl⟩ : ∃ f, fuel = f + 1 := ⟨fuel - 1, by omega⟩
    have h0 := hprev 0 (by omega)
    rw [Nat.add_zero] at h0
    rw [runRetry, if_neg (by rw [h0.1]; simp), if_neg (by rw [h0.2]; simp)]
    have hrec : runRetry success stop (k + 1) f = j + 1 := by
      refine ih (k + 1) f (by omega) ?_ ?_
      · rw [show k + 1 + j = k + (j + 1) from by omega]
        exact hs
      · intro i hi
        have := hprev (i + 1) (by omega)
        rwa [show k + (i + 1) = k + 1 + i from by omega] at this
    omega

/-! ## Claim theorems -/

/-- Claim C1, counterexample: the claim that every protocol message
round-trips through its codec is false. For the zero `snapshotChunkReq`,
decoding the encoder's 48-byte output fails (the decoder demands 44
bytes), and a `blockAnnMsg` with a 1001-byte leader signature encodes
but is rejected on decode. -/
theorem c1_roundtrip_counterexample :
    snapshotChunkReq.UnmarshalBinary (snapshotChunkReq.MarshalBinary
      { Height := 0, Format := 0, Index := 0, Hash := zeroHash }) = none ∧
    blockAnnMsg.UnmarshalBinary (blockAnnMsg.MarshalBinary
      { Hash := zeroHash, Height := 0, AppHash := zeroHash,
        LeaderSig := List.replicate 1001 0 }) = none :=
  ⟨by decide, by set_option maxRecDepth 40000 in decide⟩

/-- Claim C1 (corrected): `decode(encode(m)) = m` holds for
`blockAnnMsg` (when the leader signature is at most 1000 bytes),
`blockHeightReq`, `blockHashReq` and `snapshotReq`; for
`snapshotChunkReq` decoding the encoder's output always fails, because
the encoder writes `Format` and `Index` into the same byte range of a
48-byte buffer while the decoder requires exactly 44 bytes. -/
theorem c1_roundtrip_amended :
    (∀ m : blockAnnMsg, m.Hash.length = 32 → m.AppHash.length = 32 →
      -2 ^ 63 ≤ m.Height → m.Height < 2 ^ 63 → m.LeaderSig.length ≤ 1000 →
      blockAnnMsg.UnmarshalBinary (blockAnnMsg.MarshalBinary m) = some m) ∧
    (∀ r : blockHeightReq, -2 ^ 63 ≤ r.Height → r.Height < 2 ^ 63 →
      blockHeightReq.UnmarshalBinary (blockHeightReq.MarshalBinary r) = some r) ∧
    (∀ r : blockHashReq, r.Hash.length = 32 →
      blockHashReq.UnmarshalBinary (blockHashReq.MarshalBinary r) = some r) ∧
    (∀ r : snapshotReq, r.Height < 2 ^ 64 → r.Format < 2 ^ 32 →
      snapshotReq.UnmarshalBinary (snapshotReq.MarshalBinary r) = some r) ∧
    (∀ r : snapshotChunkReq, r.Hash.length = 32 →
      snapshotChunkReq.UnmarshalBinary (snapshotChunkReq.MarshalBinary r) = none) :=
  ⟨blockAnn_roundtrip, blockHeight_roundtrip, blockHash_roundtrip,
   snapshotReq_roundtrip, snapshotChunk_roundtrip_fails⟩

/-- Claim C1, witness: the amended round-trip facts evaluated at concrete
messages of every codec. -/
theorem c1_roundtrip_witness :
    blockAnnMsg.UnmarshalBinary (blockAnnMsg.MarshalBinary
      { Hash := zeroHash, Height := -7, AppHash := zeroHash, LeaderSig := [1, 2] }) =
      some { Hash := zeroHash, Height := -7, AppHash := zeroHash, LeaderSig := [1, 2] } ∧
    blockHeightReq.UnmarshalBinary (blockHeightReq.MarshalBinary { Height := -5 }) =
      some { Height := -5 } ∧
    blockHashReq.UnmarshalBinary (blockHashReq.MarshalBinary { Hash := zeroHash }) =
      some { Hash := zeroHash } ∧
    snapshotReq.UnmarshalBinary (snapshotReq.MarshalBinary { Height := 77, Format := 4 }) =
      some { Height := 77, Format := 4 } ∧
    snapshotChunkReq.UnmarshalBinary (snapshotChunkReq.MarshalBinary
      { Height := 1, Format := 2, Index := 3, Hash := zeroHash }) = none :=
  ⟨c1_roundtrip_amended.1 _ (by decide) (by decide) (by decide) (by decide) (by decide),
   c1_roundtrip_amended.2.1 _ (by decide) (by decide),
   c1_roundtrip_amended.2.2.1 _ (by decide),
   c1_roundtrip_amended.2.2.2.1 _ (by decide) (by decide),
   c1_roundtrip_amended.2.2.2.2 _ (by decide)⟩

/-- Claim C2: after any `Store(b, appHash)`, `Best().height` is at least
the height `Best()` reported before the call, and if `b`'s header height
strictly exceeds the previous `Best().height` then `Best()` afterwards
returns `b`'s height, `b`'s hash and the stored app hash. -/
theorem c2_store_best_monotone (hashBytes : List Nat → List Nat) (bs : MemBS)
    (b : Block) (appHash : List Nat) :
    (bs.Best).1 ≤ ((MemBS.Store hashBytes bs b appHash).Best).1 ∧
    ((bs.Best).1 < b.height →
      (MemBS.Store hashBytes bs b appHash).Best = (b.height, b.Hash, appHash)) := by
  constructor
  · exact upsert_foldl_bestStep_ge bs.hashes b.height _ _
  · intro hgt
    have hkeys : ∀ e ∈ bs.hashes, e.1 ≠ b.height := fun e he =>
      ne_of_lt (lt_of_le_of_lt (foldl_bestStep_mem_le bs.hashes _ e he) hgt)
    show (upsert bs.hashes b.height ⟨b.Hash, appHash⟩).foldl bestStep
      (0, zeroHash, zeroHash) = (b.height, b.Hash, appHash)
    rw [upsert_of_keys_ne _ _ _ hkeys, List.foldl_append, List.foldl_cons,
      List.foldl_nil]
    exact bestStep_of_ge _ _ (le_of_lt hgt)

/-- Claim C2, witness: storing a height-1 block into the empty store
moves `Best` from height 0 to exactly that block. -/
theorem c2_store_best_monotone_witness :
    ((NewMemBS.Best).1 ≤ ((MemBS.Store (fun _ => zeroHash) NewMemBS
        { height := 1, txns := [], hash := List.replicate 32 1 }
        (List.replicate 32 2)).Best).1) ∧
    (MemBS.Store (fun _ => zeroHash) NewMemBS
        { height := 1, txns := [], hash := List.replicate 32 1 }
        (List.replicate 32 2)).Best =
      (1, List.replicate 32 1, List.replicate 32 2) :=
  ⟨(c2_store_best_monotone (fun _ => zeroHash) NewMemBS
      { height := 1, txns := [], hash := List.replicate 32 1 }
      (List.replicate 32 2)).1,
   (c2_store_best_monotone (fun _ => zeroHash) NewMemBS
      { height := 1, txns := [], hash := List.replicate 32 1 }
      (List.replicate 32 2)).2 (by decide)⟩

/-- Claim C3: `PreFetch` reserves a hash for at most one fetcher. For a
hash neither stored nor being fetched, `PreFetch` returns `true`, marks
the hash as being fetched, and its release closure removes the mark from
any state; while the mark is set (or the block is stored) every
`PreFetch` of that hash returns `false` and leaves the state unchanged;
and neither `PreFetch` of other hashes nor `Store` clears the mark, so
only the release closure ends the reservation. -/
theorem c3_prefetch_exclusive :
    (∀ (bs : MemBS) (h : List Nat), alookup bs.idx h = none → h ∉ bs.fetching →
      (bs.PreFetch h).1 = true ∧ h ∈ (bs.PreFetch h).2.1.fetching ∧
      (∀ s : MemBS, h ∉ ((bs.PreFetch h).2.2 s).fetching)) ∧
    (∀ (bs : MemBS) (h : List Nat), h ∈ bs.fetching →
      bs.PreFetch h = (false, bs, id)) ∧
    (∀ (bs : MemBS) (h : List Nat), (alookup bs.idx h).isSome →
      bs.PreFetch h = (false, bs, id)) ∧
    (∀ (bs : MemBS) (h h' : List Nat), h ∈ bs.fetching →
      h ∈ (bs.PreFetch h').2.1.fetching) ∧
    (∀ (hashBytes : List Nat → List Nat) (bs : MemBS) (b : Block)
      (appHash : List Nat) (h : List Nat), h ∈ bs.fetching →
      h ∈ (MemBS.Store hashBytes bs b appHash).fetching) := by
  refine ⟨?_, ?_, ?_, ?_, ?_⟩
  · intro bs h hidx hmem
    unfold MemBS.PreFetch
    rw [if_neg (by rw [hidx]; simp), if_neg hmem]
    refine ⟨rfl, List.mem_cons_self h _, ?_⟩
    intro s hin
    rw [List.mem_filter] at hin
    simp at hin
  · intro bs h hmem
    unfold MemBS.PreFetch
    split_ifs <;> rfl
  · intro bs h hidx
    unfold MemBS.PreFetch
    rw [if_pos hidx]
  · intro bs h h' hmem
    unfold MemBS.PreFetch
    split_ifs <;> first | exact hmem | exact List.mem_cons_of_mem h' hmem
  · intro hashBytes bs b appHash h hmem
    exact hmem

/-- Claim C3, witness: the reservation facts evaluated on concrete
stores: a fresh hash is reserved, its release clears the mark, a marked
or stored hash is refused, and `PreFetch` of another hash and `Store`
both keep an existing mark. -/
theorem c3_prefetch_exclusive_witness :
    (NewMemBS.PreFetch zeroHash).1 = true ∧
    zeroHash ∈ (NewMemBS.PreFetch zeroHash).2.1.fetching ∧
    zeroHash ∉ (((NewMemBS.PreFetch zeroHash).2.2)
      (NewMemBS.PreFetch zeroHash).2.1).fetching ∧
    MemBS.PreFetch { NewMemBS with fetching := [zeroHash] } zeroHash =
      (false, { NewMemBS with fetching := [zeroHash] }, id) ∧
    MemBS.PreFetch { NewMemBS with idx := [(zeroHash, 0)] } zeroHash =
      (false, { NewMemBS with idx := [(zeroHash, 0)] }, id) ∧
    zeroHash ∈ (MemBS.PreFetch { NewMemBS with fetching := [zeroHash] }
      (List.replicate 32 9)).2.1.fetching ∧
    zeroHash ∈ (MemBS.Store (fun _ => zeroHash)
      { NewMemBS with fetching := [zeroHash] }
      { height := 1, txns := [], hash := List.replicate 32 1 } zeroHash).fetching :=
  ⟨(c3_prefetch_exclusive.1 NewMemBS zeroHash rfl (by decide)).1,
   (c3_prefetch_exclusive.1 NewMemBS zeroHash rfl (by decide)).2.1,
   (c3_prefetch_exclusive.1 NewMemBS zeroHash rfl (by decide)).2.2 _,
   c3_prefetch_exclusive.2.1 _ zeroHash (by decide),
   c3_prefetch_exclusive.2.2.1 _ zeroHash (by decide),
   c3_prefetch_exclusive.2.2.2.1 _ zeroHash (List.replicate 32 9) (by decide),
   c3_prefetch_exclusive.2.2.2.2 (fun _ => zeroHash) _
     { height := 1, txns := [], hash := List.replicate 32 1 } zeroHash zeroHash
     (by decide)⟩

/-- Claim C4: the nonce-ordering scenario of `Test_MempoolWithoutGas`.
With gas disabled and a fresh sender, nonces 1 then 2 admit; nonce 2
again is rejected as duplicate/stale; nonce 4 with nonce 3 missing is
rejected as out-of-order; nonce 3 then admits, after which nonce 4
admits, leaving the tracked account nonce at 4. -/
theorem c4_mempool_nonce_sequence :
    applyTransaction [] "A" 1 = .ok [("A", { balance := 0, nonce := 1 })] ∧
    applyTransaction [("A", { balance := 0, nonce := 1 })] "A" 2 =
      .ok [("A", { balance := 0, nonce := 2 })] ∧
    applyTransaction [("A", { balance := 0, nonce := 2 })] "A" 2 =
      .error .duplicateOrStale ∧
    applyTransaction [("A", { balance := 0, nonce := 2 })] "A" 4 =
      .error .outOfOrder ∧
    applyTransaction [("A", { balance := 0, nonce := 2 })] "A" 3 =
      .ok [("A", { balance := 0, nonce := 3 })] ∧
    applyTransaction [("A", { balance := 0, nonce := 3 })] "A" 4 =
      .ok [("A", { balance := 0, nonce := 4 })] ∧
    alookup [("A", ({ balance := 0, nonce := 4 } : Account))] "A" =
      some { balance := 0, nonce := 4 } :=
  ⟨rfl, rfl, rfl, rfl, rfl, rfl, rfl⟩

/-- Claim C5: for each of `Deploy`, `Drop` and `Execute` with a computed
price, a fee below the price returns `ErrInsufficientFee` with no `Spend`
issued, and a fee at or above the price issues exactly one `Spend` whose
amount is the price (not the fee) while the response carries the price
as its `Fee`. -/
theorem c5_fee_price_spend (price : Int) (spendOk engineOk : Bool) (tx : DsTx) :
    (tx.fee < price →
      Deploy (.ok price) spendOk engineOk tx = ([], resp price, some .insufficientFee) ∧
      Drop (.ok price) spendOk engineOk tx = ([], resp price, some .insufficientFee) ∧
      Execute (.ok price) spendOk engineOk tx = ([], resp price, some .insufficientFee)) ∧
    (price ≤ tx.fee →
      ((Deploy (.ok price) spendOk engineOk tx).1 =
        [{ accountPubKey := tx.sender, amount := price, nonce := toInt64 tx.nonce }] ∧
       (Deploy (.ok price) spendOk engineOk tx).2.1.fee = price) ∧
      ((Drop (.ok price) spendOk engineOk tx).1 =
        [{ accountPubKey := tx.sender, amount := price, nonce := toInt64 tx.nonce }] ∧
       (Drop (.ok price) spendOk engineOk tx).2.1.fee = price) ∧
      ((Execute (.ok price) spendOk engineOk tx).1 =
        [{ accountPubKey := tx.sender, amount := price, nonce := toInt64 tx.nonce }] ∧
       (Execute (.ok price) spendOk engineOk tx).2.1.fee = price)) := by
  constructor
  · intro hlt
    have hcs : compareAndSpend price tx spendOk = ([], some .insufficientFee) := by
      rw [compareAndSpend, if_pos hlt]
    refine ⟨?_, ?_, ?_⟩ <;> simp only [Deploy, Drop, Execute, hcs]
  · intro hge
    have hcs : compareAndSpend price tx spendOk =
        ([{ accountPubKey := tx.sender, amount := price, nonce := toInt64 tx.nonce }],
         if spendOk then none else some .spendFailed) := by
      rw [compareAndSpend, if_neg (by omega)]
    refine ⟨⟨?_, ?_⟩, ⟨?_, ?_⟩, ⟨?_, ?_⟩⟩ <;>
      simp only [Deploy, Drop, Execute, hcs] <;> cases spendOk <;> cases engineOk <;> rfl

/-- Claim C5, witness: price 5 against fee 3 (rejected, no spend) and
against fee 7 (spend of exactly 5, response fee 5) for all three
operations. -/
theorem c5_fee_price_spend_witness :
    Deploy (.ok 5) true true { sender := [1], fee := 3, nonce := 0 } =
      ([], resp 5, some .insufficientFee) ∧
    Drop (.ok 5) true true { sender := [1], fee := 3, nonce := 0 } =
      ([], resp 5, some .insufficientFee) ∧
    Execute (.ok 5) true true { sender := [1], fee := 3, nonce := 0 } =
      ([], resp 5, some .insufficientFee) ∧
    (Deploy (.ok 5) true true { sender := [1], fee := 7, nonce := 0 }).1 =
      [{ accountPubKey := [1], amount := 5, nonce := toInt64 0 }] ∧
    (Deploy (.ok 5) true true { sender := [1], fee := 7, nonce := 0 }).2.1.fee = 5 ∧
    (Drop (.ok 5) true true { sender := [1], fee := 7, nonce := 0 }).1 =
      [{ accountPubKey := [1], amount := 5, nonce := toInt64 0 }] ∧
    (Execute (.ok 5) true true { sender := [1], fee := 7, nonce := 0 }).1 =
      [{ accountPubKey := [1], amount := 5, nonce := toInt64 0 }] :=
  ⟨((c5_fee_price_spend 5 true true { sender := [1], fee := 3, nonce := 0 }).1
      (by decide)).1,
   ((c5_fee_price_spend 5 true true { sender := [1], fee := 3, nonce := 0 }).1
      (by decide)).2.1,
   ((c5_fee_price_spend 5 true true { sender := [1], fee := 3, nonce := 0 }).1
      (by decide)).2.2,
   ((c5_fee_price_spend 5 true true { sender := [1], fee := 7, nonce := 0 }).2
      (by decide)).1.1,
   ((c5_fee_price_spend 5 true true { sender := [1], fee := 7, nonce := 0 }).2
      (by decide)).1.2,
   ((c5_fee_price_spend 5 true true { sender := [1], fee := 7, nonce := 0 }).2
      (by decide)).2.1.1,
   ((c5_fee_price_spend 5 true true { sender := [1], fee := 7, nonce := 0 }).2
      (by decide)).2.2.1⟩

/-- Claim C6 (code bug): the reconnect delay formula overflows `int64`.
Through attempt 32 the computed delay still caps at one minute, but at
attempt 33 the Go expression `baseReconnectDelay * (1 << attempt)` wraps
to the negative value -1266874889709551616 ns, escaping the one-minute
cap (which only clamps values above one minute), while the claimed
formula `min(2s·2^33, 60s)` says 60s; from attempt 54 on the product is
exactly 0. So the delay is neither the claimed minimum nor positive for
all attempts below 500. -/
theorem c6_reconnect_delay_overflow :
    reconnectDelay 32 = oneMinute ∧
    reconnectDelay 33 = -1266874889709551616 ∧
    reconnectDelay 33 < 0 ∧
    min (2000000000 * 2 ^ 33 : Int) oneMinute = oneMinute ∧
    reconnectDelay 54 = 0 :=
  ⟨by decide, by decide, by decide, by decide, by decide⟩

/-- Claim C7: the reconnect loop performs at most `maxRetries = 500`
connection attempts whatever the environment does, and stops right after
the first successful attempt: if attempt `j` succeeds after `j` failed
attempts with no shutdown, exactly `j + 1` attempts run. -/
theorem c7_reconnect_attempt_bound (success stop : Nat → Bool) :
    reconnectAttempts success stop ≤ 500 ∧
    (∀ j, j < 500 → success j = true →
      (∀ i, i < j → success i = false ∧ stop i = false) →
      reconnectAttempts success stop = j + 1) := by
  constructor
  · exact runRetry_le success stop 0 maxRetries
  · intro j hj hs hprev
    refine runRetry_first_success success stop j 0 maxRetries hj ?_ ?_
    · rw [Nat.zero_add]
      exact hs
    · intro i hi
      rw [Nat.zero_add]
      exact hprev i hi

/-- Claim C7, witness: with the fourth attempt (index 3) succeeding, the
loop performs exactly 4 attempts, within the 500 bound. -/
theorem c7_reconnect_attempt_bound_witness :
    reconnectAttempts (fun k => decide (k = 3)) (fun _ => false) ≤ 500 ∧
    reconnectAttempts (fun k => decide (k = 3)) (fun _ => false) = 4 :=
  ⟨(c7_reconnect_attempt_bound (fun k => decide (k = 3)) (fun _ => false)).1,
   (c7_reconnect_attempt_bound (fun k => decide (k = 3)) (fun _ => false)).2 3
     (by decide) (by decide)
     (fun i hi => ⟨by simp only [decide_eq_false_iff_not]; omega, rfl⟩)⟩

/-- Claim C8: decoding a `blkann` stream whose 8-byte little-endian
signature-length field (bytes 72..80) exceeds 1000 fails, and any
successfully decoded `blockAnnMsg` carries a leader signature of at most
1000 bytes. -/
theorem c8_blockann_sig_limit :
    (∀ data : List Nat, 80 ≤ data.length → 1000 < fromLE ((data.drop 72).take 8) →
      blockAnnMsg.ReadFrom data = none) ∧
    (∀ (data : List Nat) (m : blockAnnMsg) (rest : List Nat),
      blockAnnMsg.ReadFrom data = some (m, rest) → m.LeaderSig.length ≤ 1000) :=
  ⟨readFrom_oversize_sig, readFrom_sig_le⟩

/-- Claim C8, witness: a stream with signature-length field 1001 is
rejected, and a decoded concrete announcement has a bounded signature. -/
theorem c8_blockann_sig_limit_witness :
    blockAnnMsg.ReadFrom (List.replicate 72 0 ++ leBytes 8 1001 ++ List.replicate 9 9) =
      none ∧
    (blockAnnMsg.mk zeroHash 0 zeroHash [5]).LeaderSig.length ≤ 1000 :=
  ⟨c8_blockann_sig_limit.1 _ (by decide) (by decide),
   c8_blockann_sig_limit.2
     (blockAnnMsg.MarshalBinary (blockAnnMsg.mk zeroHash 0 zeroHash [5]))
     (blockAnnMsg.mk zeroHash 0 zeroHash [5]) [] (by decide)⟩

/-- Claim C9: `readResp` classifies every stream: an empty body is the
no-response error, a body of exactly the single byte 0 is the not-found
error, and any other body — the stream truncated at the read limit — is
returned as content, which therefore is never empty, never the single
byte 0, and never longer than the limit. -/
theorem c9_readresp_classification (stream : List Nat) (limit : Nat) :
    (stream.take limit = [] → readResp stream limit = .error .noResponse) ∧
    (stream.take limit = [0] → readResp stream limit = .error .notFound) ∧
    (∀ body, readResp stream limit = .ok body →
      body = stream.take limit ∧ body ≠ [] ∧ body ≠ [0] ∧ body.length ≤ limit) := by
  refine ⟨?_, ?_, ?_⟩
  · intro h
    rw [readResp]
    simp only [h]
    rfl
  · intro h
    rw [readResp]
    simp only [h]
    rfl
  · intro body h
    rw [readResp] at h
    by_cases h1 : stream.take limit = []
    · rw [if_pos h1] at h
      exact Except.noConfusion h
    · rw [if_neg h1] at h
      by_cases h2 : stream.take limit = noData
      · rw [if_pos h2] at h
        exact Except.noConfusion h
      · rw [if_neg h2] at h
        injection h with h3
        rw [h3] at h1 h2
        refine ⟨h3.symm, h1, h2, ?_⟩
        rw [← h3, List.length_take]
        omega

/-- Claim C9, witness: the three classifications at concrete streams. -/
theorem c9_readresp_classification_witness :
    readResp [] 5 = .error .noResponse ∧
    readResp [0] 5 = .error .notFound ∧
    (([7, 8] : List Nat) = [7, 8].take 5 ∧ ([7, 8] : List Nat) ≠ [] ∧
      ([7, 8] : List Nat) ≠ [0] ∧ ([7, 8] : List Nat).length ≤ 5) :=
  ⟨(c9_readresp_classification [] 5).1 (by decide),
   (c9_readresp_classification [0] 5).2.1 (by decide),
   (c9_readresp_classification [7, 8] 5).2.2 [7, 8] rfl⟩

/-- Claim C10: `Best()` on an empty store returns height 0 with all-zero
block and app hashes rather than an error; `Best()` never returns a
negative height; and storing a block with a negative header height
leaves `Best()` unchanged. -/
theorem c10_best_empty_nonnegative :
    NewMemBS.Best = (0, zeroHash, zeroHash) ∧
    (∀ bs : MemBS, 0 ≤ (bs.Best).1) ∧
    (∀ (hashBytes : List Nat → List Nat) (bs : MemBS) (b : Block) (appHash : List Nat),
      b.height < 0 → (MemBS.Store hashBytes bs b appHash).Best = bs.Best) := by
  refine ⟨rfl, ?_, ?_⟩
  · intro bs
    exact foldl_bestStep_height_ge bs.hashes (0, zeroHash, zeroHash)
  · intro hashBytes bs b appHash hneg
    exact upsert_neg_foldl_bestStep bs.hashes b.height _ _ hneg (by norm_num)

/-- Claim C10, witness: storing a block at height -4 into the empty store
leaves `Best` at its empty-store value. -/
theorem c10_best_empty_nonnegative_witness :
    (MemBS.Store (fun _ => zeroHash) NewMemBS
      { height := -4, txns := [], hash := List.replicate 32 3 } zeroHash).Best =
    NewMemBS.Best :=
  c10_best_empty_nonnegative.2.2 (fun _ => zeroHash) NewMemBS
    { height := -4, txns := [], hash := List.replicate 32 3 } zeroHash (by decide)
